import Mathlib

/-!
A shallow embedding of the trust-infra repository's trust core
(capability engine, reputation engine, event ledger admission and chain
verification, request authenticator, keystore), together with theorems
checking the natural-language specification against the code.

Modelling conventions:
* JavaScript `Date` values are modelled as integers (milliseconds or
  seconds since the epoch; only their ordering matters to the code).
* External cryptographic primitives (`sha256`, Ed25519 verify, scrypt,
  AES-256-GCM, the RFC 8785 canonicalizer from `json-canonicalize`) are
  parameters of the embedded functions; concrete executable stand-ins are
  supplied in witnesses.
* `jsonb` / `Record<string, any>` values are modelled by the inductive
  `JValue`; JavaScript truthiness is `JValue.truthy`.
* Hex-string transport of byte strings (`Buffer.toString('hex')` /
  `Buffer.from(s, 'hex')`, a bijection) is modelled by storing the bytes
  directly.
* Error strings thrown/pushed by the code are modelled by structured
  error values carrying the same information (indices, expected/got
  values), or verbatim strings where convenient.
-/

namespace TrustInfra

/-- byte strings, as used by Buffers and Uint8Arrays in the source -/
abbrev Bytes := List Nat

/-- dynamic JSON-ish values (`payload`, capability `scope` values) -/
inductive JValue where
  | null : JValue
  | bool : Bool → JValue
  | num : Int → JValue
  | str : String → JValue
  | obj : List (String × JValue) → JValue

/-- JavaScript truthiness for a `JValue` (objects are always truthy,
`0`, `""`, `false`, `null` are falsy) -/
def JValue.truthy : JValue → Bool
  | .null => false
  | .bool b => b
  | .num n => decide (n ≠ 0)
  | .str s => decide (s ≠ "")
  | .obj _ => true

/-- property read `o[k]` on a JS object modelled as an association list
(JS object keys are unique; first match) -/
def scopeGet (scope : List (String × JValue)) (k : String) : Option JValue :=
  (scope.find? (fun kv => kv.1 = k)).map (fun kv => kv.2)

/-- truthiness of `o[k]` where a missing property reads as `undefined` -/
def jsGetTruthy (scope : List (String × JValue)) (k : String) : Bool :=
  match scopeGet scope k with
  | none => false
  | some v => v.truthy

section Capabilities

/-- capability status enum from `db/schema/capabilities.ts` -/
inductive CapStatus where
  | active : CapStatus
  | expired : CapStatus
  | revoked : CapStatus
deriving DecidableEq

/-- a row of the `capabilities` table -/
structure Capability where
  id : String
  agentId : String
  scope : List (String × JValue)
  issuedBy : String
  issuedAt : Int
  expiresAt : Int
  status : CapStatus
  tokenHash : String
  revokedAt : Option Int

/-- `CapabilityRepository.findByTokenHash`: first row whose `token_hash`
matches -/
def findByTokenHash (caps : List Capability) (tokenHash : String) : Option Capability :=
  caps.find? (fun c => c.tokenHash = tokenHash)

/-- `CapabilityRepository.findActiveForAgent`: rows of the agent with
status `active` and `expires_at >= now` (drizzle `gte`) -/
def findActiveForAgent (caps : List Capability) (agentId : String) (now : Int) :
    List Capability :=
  caps.filter (fun c => c.agentId = agentId ∧ c.status = .active ∧ c.expiresAt ≥ now)

/-- result shape of `CapabilityService.validateToken` -/
structure ValidateResult where
  valid : Bool
  capability : Option Capability
  reason : Option String

/-- `CapabilityService.validateToken`, with the `sha256` used for the
token lookup abstracted as `hashFn` and the current time as `now` -/
def validateToken (caps : List Capability) (hashFn : String → String)
    (token : String) (now : Int) : ValidateResult :=
  let tokenHash := hashFn token
  match findByTokenHash caps tokenHash with
  | none => ⟨false, none, some "Token not found"⟩
  | some capability =>
    if capability.status = .revoked then
      ⟨false, some capability, some "Token revoked"⟩
    else if capability.status = .expired ∨ now > capability.expiresAt then
      ⟨false, some capability, some "Token expired"⟩
    else
      ⟨true, some capability, none⟩

/-- result shape of `CapabilityService.checkPermission` -/
structure PermissionResult where
  allowed : Bool
  scope : Option JValue
  reason : Option String

/-- the namespace part of an action: `action.split(':')[0]`, i.e. the
characters before the first colon (the whole string when none) -/
def actionNamespace (action : String) : String :=
  String.mk (action.data.takeWhile (fun c => c ≠ ':'))

/-- the wildcard scope key for an action's namespace -/
def wildcardKey (action : String) : String :=
  actionNamespace action ++ ":*"

/-- loop body of `CapabilityService.checkPermission` over the active
capability list: exact key first, then the namespace wildcard -/
def checkPermissionLoop (action : String) : List Capability → PermissionResult
  | [] => ⟨false, none, some ("No capability grants permission for: " ++ action)⟩
  | cap :: rest =>
    if jsGetTruthy cap.scope action then
      ⟨true, scopeGet cap.scope action, none⟩
    else if jsGetTruthy cap.scope (wildcardKey action) then
      ⟨true, scopeGet cap.scope (wildcardKey action), none⟩
    else
      checkPermissionLoop action rest

/-- `CapabilityService.checkPermission` -/
def checkPermission (caps : List Capability) (agentId : String) (action : String)
    (now : Int) : PermissionResult :=
  checkPermissionLoop action (findActiveForAgent caps agentId now)

end Capabilities

section Reputation

/-- outcome type enum from `reputation.service.ts` -/
inductive OutcomeType where
  | success : OutcomeType
  | partial_success : OutcomeType
  | failure : OutcomeType
  | user_corrected : OutcomeType
  | harmful : OutcomeType
deriving DecidableEq

/-- the `OUTCOME_IMPACT_SCORES` table; JS number literals modelled as
rationals -/
def OUTCOME_IMPACT_SCORES : OutcomeType → ℚ
  | .success => 1/2
  | .partial_success => 1/5
  | .failure => -3/10
  | .user_corrected => -1/2
  | .harmful => -2

/-- the mutable columns of a `reputation` row touched by
`recordOutcome` (numeric columns as rationals, exact arithmetic) -/
structure ReputationRow where
  overallScore : ℚ
  totalActions : ℕ
  successRate : ℚ
  failureRate : ℚ
  harmfulActions : ℕ
  userCorrections : ℕ

/-- a freshly created reputation row, per the schema defaults
(`overall_score` 50.0, everything else 0) -/
def initialReputation : ReputationRow := ⟨50, 0, 0, 0, 0, 0⟩

/-- `ReputationService.recordOutcome`, acting on the current row -/
def recordOutcome (current : ReputationRow) (outcomeType : OutcomeType)
    (customImpactScore : Option ℚ) : ReputationRow :=
  let impactScore := customImpactScore.getD (OUTCOME_IMPACT_SCORES outcomeType)
  let newOverallScore := max 0 (min 100 (current.overallScore + impactScore))
  let newTotalActions := current.totalActions + 1
  let isSuccess := outcomeType = .success ∨ outcomeType = .partial_success
  let isFailure := outcomeType = .failure ∨ outcomeType = .user_corrected ∨
    outcomeType = .harmful
  let isHarmful := outcomeType = .harmful
  let isUserCorrected := outcomeType = .user_corrected
  let currentSuccesses := current.successRate * (current.totalActions : ℚ)
  let currentFailures := current.failureRate * (current.totalActions : ℚ)
  let newSuccesses := currentSuccesses + (if isSuccess then 1 else 0)
  let newFailures := currentFailures + (if isFailure then 1 else 0)
  let newSuccessRate := newSuccesses / (newTotalActions : ℚ)
  let newFailureRate := newFailures / (newTotalActions : ℚ)
  { overallScore := newOverallScore
    totalActions := newTotalActions
    successRate := newSuccessRate
    failureRate := newFailureRate
    harmfulActions := current.harmfulActions + (if isHarmful then 1 else 0)
    userCorrections := current.userCorrections + (if isUserCorrected then 1 else 0) }

/-- fold `recordOutcome` over a list of reported outcomes (each with an
optional custom impact) -/
def applyOutcomes (start : ReputationRow) (os : List (OutcomeType × Option ℚ)) :
    ReputationRow :=
  os.foldl (fun r oc => recordOutcome r oc.1 oc.2) start

/-- membership of an outcome in the success class -/
def isSuccessOutcome (t : OutcomeType) : Bool :=
  t = .success ∨ t = .partial_success

/-- membership of an outcome in the failure class -/
def isFailureOutcome (t : OutcomeType) : Bool :=
  t = .failure ∨ t = .user_corrected ∨ t = .harmful

/-- running count of success-class outcomes in a report list -/
def countSuccesses (os : List (OutcomeType × Option ℚ)) : ℕ :=
  (os.filter (fun oc => isSuccessOutcome oc.1)).length

/-- running count of failure-class outcomes in a report list -/
def countFailures (os : List (OutcomeType × Option ℚ)) : ℕ :=
  (os.filter (fun oc => isFailureOutcome oc.1)).length

/-- spec-side clamp, written from the spec's words
`clamp(overall_score + Δ, 0, 100)` -/
def clampSpec (x lo hi : ℚ) : ℚ :=
  if x < lo then lo else if x > hi then hi else x

end Reputation

section Auth

/-- agent status enum -/
inductive AgentStatus where
  | active : AgentStatus
  | revoked : AgentStatus
deriving DecidableEq

/-- the columns of an `agents` row the authenticator and ledger read -/
structure Agent where
  agentId : String
  publicKey : String
  status : AgentStatus
deriving DecidableEq

/-- `AgentRepository.findById` -/
def findAgentById (agents : List Agent) (agentId : String) : Option Agent :=
  agents.find? (fun a => a.agentId = agentId)

/-- JS string truthiness for an optional header/query value (missing or
empty string is falsy) -/
def strTruthy : Option String → Bool
  | none => false
  | some s => decide (s ≠ "")

/-- accumulate a decimal digit string into a natural number -/
def digitsToNat (s : List Char) : Nat :=
  s.foldl (fun acc c => acc * 10 + (c.toNat - 48)) 0

/-- strip leading and trailing JS whitespace from a character list -/
def trimChars (cs : List Char) : List Char :=
  let ws := fun c => c = ' ' ∨ c = '\t' ∨ c = '\n' ∨ c = '\r'
  ((cs.dropWhile ws).reverse.dropWhile ws).reverse

/-- `parseInt(s, 10)` from JS: trim, optional sign, longest leading
digit run; `none` models `NaN` -/
def parseIntJS (s : String) : Option Int :=
  let t := trimChars s.data
  let sign : Int := if t.headD 'x' = '-' then -1 else 1
  let rest := if t.headD 'x' = '-' ∨ t.headD 'x' = '+' then t.drop 1 else t
  let digits := rest.takeWhile Char.isDigit
  if digits.isEmpty then none
  else some (sign * (digitsToNat digits : Int))

/-- outcomes of `verifyAgentSignature` (HTTP replies modelled as
structured results carrying the reply's distinguishing data) -/
inductive AuthResult where
  | missingHeaders : AuthResult
  | invalidTimestamp : AuthResult
  | timestampExpired : Int → AuthResult
  | agentNotFound : String → AuthResult
  | agentNotActive : AgentStatus → AuthResult
  | invalidSignature : AuthResult
  | ok : Agent → AuthResult
deriving DecidableEq

/-- `verifyAgentSignature` from the auth middleware. `sigVerify` stands
for Ed25519 verification (signature hex, message, public key hex);
`now` is `Math.floor(Date.now() / 1000)`; `window` is
`config.signatureTimestampWindow`; `body` is the serialized request
body (empty string when absent). -/
def verifyAgentSignatureE (sigVerify : String → String → String → Bool)
    (agents : List Agent) (window : Int) (now : Int)
    (agentIdHdr timestampHdr signatureHdr : Option String)
    (method path body : String) : AuthResult :=
  if ¬ (strTruthy agentIdHdr ∧ strTruthy timestampHdr ∧ strTruthy signatureHdr) then
    .missingHeaders
  else
    let agentId := agentIdHdr.getD ""
    let timestamp := timestampHdr.getD ""
    let signature := signatureHdr.getD ""
    match parseIntJS timestamp with
    | none => .invalidTimestamp
    | some requestTime =>
      let timeDiff := (now - requestTime).natAbs
      if (timeDiff : Int) > window then .timestampExpired window
      else
        match findAgentById agents agentId with
        | none => .agentNotFound agentId
        | some agent =>
          if agent.status ≠ .active then .agentNotActive agent.status
          else
            let payload := method ++ ":" ++ path ++ ":" ++ body ++ ":" ++ timestamp
            if sigVerify signature payload agent.publicKey then .ok agent
            else .invalidSignature

end Auth

section EventsQuery

/-- a row of the `events` table (timestamps as integers, payload as a
dynamic JSON value) -/
structure EventRow where
  id : Nat
  agentId : String
  eventType : String
  timestamp : Int
  prevHash : Option String
  hash : String
  payload : JValue
  signature : String
  correlationId : Option String

/-- a JS number that may be `NaN` (`none`) -/
abbrev JSNum := Option Int

/-- JS number truthiness: `NaN` and `0` are falsy -/
def jsNumTruthy : JSNum → Bool
  | none => false
  | some n => decide (n ≠ 0)

/-- the filter set accepted by `EventRepository.query`; `limit` and
`offset` are `number | undefined` in TS, so each is an optional,
possibly-NaN number here -/
structure EventFilters where
  agentId : Option String := none
  eventType : Option String := none
  correlationId : Option String := none
  sinceT : Option Int := none
  untilT : Option Int := none
  limit : Option JSNum := none
  offset : Option JSNum := none

/-- push a condition only when the optional string filter is truthy,
mirroring `if (filters.x) conditions.push(...)` -/
def applyStrFilter (fv : Option String) (check : String → Bool) : Bool :=
  match fv with
  | none => true
  | some v => if v = "" then true else check v

/-- push a condition only when the optional date filter is present
(Date objects are always truthy) -/
def applyIntFilter (fv : Option Int) (check : Int → Bool) : Bool :=
  match fv with
  | none => true
  | some v => check v

/-- the conjunction of the WHERE conditions `EventRepository.query`
builds for a row -/
def matchesFilters (f : EventFilters) (e : EventRow) : Bool :=
  applyStrFilter f.agentId (fun v => e.agentId = v) &&
  applyStrFilter f.eventType (fun v => e.eventType = v) &&
  applyStrFilter f.correlationId (fun v => e.correlationId = some v) &&
  applyIntFilter f.sinceT (fun v => e.timestamp ≥ v) &&
  applyIntFilter f.untilT (fun v => e.timestamp ≤ v)

/-- `orderBy(desc(events.timestamp))` (ties left in an arbitrary stable
order, as in SQL) -/
def sortByTimestampDesc (es : List EventRow) : List EventRow :=
  es.mergeSort (fun a b => b.timestamp ≤ a.timestamp)

/-- `EventRepository.query`: filter, order by timestamp descending,
then apply `limit` / `offset` only when truthy (`0`, `NaN` and
`undefined` all skip the clause); SQL applies OFFSET before LIMIT -/
def queryEvents (store : List EventRow) (f : EventFilters) : List EventRow :=
  let ordered := sortByTimestampDesc (store.filter (matchesFilters f))
  let afterOffset :=
    match f.offset with
    | some jn => if jsNumTruthy jn then ordered.drop (jn.getD 0).toNat else ordered
    | none => ordered
  match f.limit with
  | some jn => if jsNumTruthy jn then afterOffset.take (jn.getD 0).toNat else afterOffset
  | none => afterOffset

/-- the GET /events route's limit computation:
`query.limit ? parseInt(query.limit, 10) : 100` -/
def routeParsedLimit (q : Option String) : JSNum :=
  match q with
  | none => some 100
  | some s => if s = "" then some 100 else parseIntJS s

/-- the GET /events route's offset computation:
`query.offset ? parseInt(query.offset, 10) : 0` -/
def routeParsedOffset (q : Option String) : JSNum :=
  match q with
  | none => some 0
  | some s => if s = "" then some 0 else parseIntJS s

/-- the GET /events route handler composed with
`EventService.queryEvents` (which forwards to the repository); the
route's `new Date(...)` conversions for `since`/`until` are modelled as
already-parsed optional integers -/
def getEventsRoute (store : List EventRow)
    (agentIdQ eventTypeQ correlationIdQ : Option String)
    (sinceQ untilQ : Option Int) (limitQ offsetQ : Option String) : List EventRow :=
  queryEvents store
    { agentId := agentIdQ
      eventType := eventTypeQ
      correlationId := correlationIdQ
      sinceT := sinceQ
      untilT := untilQ
      limit := some (routeParsedLimit limitQ)
      offset := some (routeParsedOffset offsetQ) }

end EventsQuery

section Ledger

/-- the unsigned wire form of an event (result of `prepareForSigning`);
the ISO timestamp string is modelled by the instant it denotes -/
structure UnsignedEventE where
  agent_id : String
  event_type : String
  timestamp : Int
  prev_hash : Option String
  payload : JValue
  correlation_id : Option String

/-- a signed event as exchanged over the wire -/
structure SignedEventE extends UnsignedEventE where
  hash : String
  signature : String

/-- the external crypto primitives used by the ledger: the RFC 8785
canonicalizer, `sha256` rendered as hex, and Ed25519 verification
(signature hex, message, public key hex) -/
structure ChainPrims where
  canon : UnsignedEventE → String
  hashFn : String → String
  sigVerify : String → String → String → Bool

/-- the error strings pushed by `verifyEvent`, as structured values -/
inductive EventError where
  | hashMismatch : String → String → EventError
  | invalidSignature : EventError
deriving DecidableEq

/-- result shape of `verifyEvent` -/
structure VerificationResultE where
  valid : Bool
  errors : List EventError
deriving DecidableEq

/-- `verifyEvent` from `verification.ts`: recompute the hash over the
canonical bytes and check the Ed25519 signature, collecting both errors -/
def verifyEventE (P : ChainPrims) (event : SignedEventE) (publicKeyHex : String) :
    VerificationResultE :=
  let canonicalJSON := P.canon event.toUnsignedEventE
  let computedHash := P.hashFn canonicalJSON
  let hashErrs :=
    if computedHash ≠ event.hash then [EventError.hashMismatch event.hash computedHash]
    else []
  let sigErrs :=
    if ¬ P.sigVerify event.signature canonicalJSON publicKeyHex then
      [EventError.invalidSignature]
    else []
  let errors := hashErrs ++ sigErrs
  ⟨errors.isEmpty, errors⟩

/-- the error strings pushed by `verifyEventChain`, as structured
values carrying the same data (event index, expected/got hashes) -/
inductive ChainIssue where
  | genesisPrevHashNotNull : ChainIssue
  | eventInvalid : Nat → List EventError → ChainIssue
  | prevHashMismatch : Nat → String → Option String → ChainIssue
deriving DecidableEq

/-- the event index an accumulated issue refers to (the genesis
prev-hash issue concerns event 0) -/
def ChainIssue.index : ChainIssue → Nat
  | .genesisPrevHashNotNull => 0
  | .eventInvalid i _ => i
  | .prevHashMismatch i _ _ => i

/-- result shape of `verifyEventChain` -/
structure ChainVerificationResultE where
  valid : Bool
  errors : List ChainIssue
  totalEvents : Nat
  firstInvalidEvent : Option Nat
deriving DecidableEq

/-- the main loop of `verifyEventChain`: per-event hash/signature
verification, plus the linkage check against the previous event for all
but the first -/
def chainLoop (P : ChainPrims) (pub : String) :
    Nat → Option SignedEventE → List SignedEventE → List ChainIssue
  | _, _, [] => []
  | i, prev, e :: rest =>
    let r := verifyEventE P e pub
    let verifyErrs := if ¬ r.valid then [ChainIssue.eventInvalid i r.errors] else []
    let linkErrs :=
      match prev with
      | none => []
      | some pe =>
        if e.prev_hash ≠ some pe.hash then
          [ChainIssue.prevHashMismatch i pe.hash e.prev_hash]
        else []
    verifyErrs ++ linkErrs ++ chainLoop P pub (i + 1) (some e) rest

/-- `verifyEventChain` from `verification.ts`; `firstInvalidEvent` is
assigned at the first pushed error, which (indices being pushed in
nondecreasing order, genesis first) is the head of the error list -/
def verifyEventChainE (P : ChainPrims) (events : List SignedEventE) (pub : String) :
    ChainVerificationResultE :=
  match events with
  | [] => ⟨true, [], 0, none⟩
  | e0 :: _ =>
    let genesisErrs := if e0.prev_hash ≠ none then [ChainIssue.genesisPrevHashNotNull] else []
    let errors := genesisErrs ++ chainLoop P pub 0 none events
    ⟨errors.isEmpty, errors, events.length, (errors.head?).map ChainIssue.index⟩

/-- the persistent state the event service operates on -/
structure LedgerState where
  agents : List Agent
  events : List EventRow

/-- `EventRepository.getLastEventForAgent`: the agent's event with the
highest `(timestamp, id)` -/
def getLastEventForAgent (events : List EventRow) (agentId : String) : Option EventRow :=
  (events.filter (fun e => e.agentId = agentId)).foldl
    (fun acc e =>
      match acc with
      | none => some e
      | some b =>
        if b.timestamp < e.timestamp ∨ (b.timestamp = e.timestamp ∧ b.id < e.id) then some e
        else some b)
    none

/-- the admission request received by `EventService.appendEvent`
(note: it carries no `prev_hash` field) -/
structure AppendEventRequest where
  agentId : String
  eventType : String
  timestamp : Option Int
  payload : JValue
  correlationId : Option String
  hash : String
  signature : String

/-- the errors `appendEvent` throws, as structured values -/
inductive AppendError where
  | agentNotFound : String → AppendError
  | agentNotActive : AgentStatus → AppendError
  | verificationFailed : List EventError → AppendError
  | chainBroken : Option String → Option String → AppendError

/-- `EventService.appendEvent`: agent lookup and status check, link
resolution, reconstruction of the signed event with the derived
`prev_hash`, hash/signature verification, the prev-hash comparison, and
the insert. Returns the resulting store together with the outcome; on
error the store is unchanged (the insert is the final step). -/
def appendEvent (P : ChainPrims) (st : LedgerState) (request : AppendEventRequest)
    (now : Int) : LedgerState × Except AppendError EventRow :=
  match findAgentById st.agents request.agentId with
  | none => (st, .error (.agentNotFound request.agentId))
  | some agent =>
    if agent.status ≠ .active then (st, .error (.agentNotActive agent.status))
    else
      let lastEvent := getLastEventForAgent st.events request.agentId
      let prevHash := lastEvent.map (fun e => e.hash)
      let signedEvent : SignedEventE :=
        { agent_id := request.agentId
          event_type := request.eventType
          timestamp := request.timestamp.getD now
          prev_hash := prevHash
          payload := request.payload
          correlation_id := request.correlationId
          hash := request.hash
          signature := request.signature }
      let verification := verifyEventE P signedEvent agent.publicKey
      if ¬ verification.valid then (st, .error (.verificationFailed verification.errors))
      else if signedEvent.prev_hash ≠ prevHash then
        (st, .error (.chainBroken prevHash signedEvent.prev_hash))
      else
        let newRow : EventRow :=
          { id := (st.events.map (fun e => e.id)).foldr max 0 + 1
            agentId := request.agentId
            eventType := request.eventType
            timestamp := request.timestamp.getD now
            prevHash := prevHash
            hash := request.hash
            payload := request.payload
            signature := request.signature
            correlationId := request.correlationId }
        ({ st with events := st.events ++ [newRow] }, .ok newRow)

/-- `EventRepository.getAgentChain`: the agent's events ordered by
`(timestamp, id)` ascending -/
def getAgentChain (events : List EventRow) (agentId : String) : List EventRow :=
  (events.filter (fun e => e.agentId = agentId)).mergeSort
    (fun a b => a.timestamp < b.timestamp ∨ (a.timestamp = b.timestamp ∧ a.id ≤ b.id))

/-- the row-to-wire conversion in `EventService.verifyAgentChain`
(`correlation_id: e.correlationId || undefined` maps falsy values to
absent) -/
def toSignedEvent (e : EventRow) : SignedEventE :=
  { agent_id := e.agentId
    event_type := e.eventType
    timestamp := e.timestamp
    prev_hash := e.prevHash
    payload := e.payload
    correlation_id :=
      match e.correlationId with
      | none => none
      | some c => if c = "" then none else some c
    hash := e.hash
    signature := e.signature }

/-- `EventService.verifyAgentChain`: agent lookup, chain load, the
early return for an empty chain, then `verifyEventChain` -/
def verifyAgentChainService (P : ChainPrims) (st : LedgerState) (agentId : String) :
    Except String ChainVerificationResultE :=
  match findAgentById st.agents agentId with
  | none => .error ("Agent not found: " ++ agentId)
  | some agent =>
    let events := getAgentChain st.events agentId
    if events.length = 0 then .ok ⟨true, [], 0, none⟩
    else .ok (verifyEventChainE P (events.map toSignedEvent) agent.publicKey)

end Ledger

section Keystore

/-- scrypt cost parameters (N, r, p) -/
structure ScryptCost where
  n : Nat
  r : Nat
  p : Nat
deriving DecidableEq

/-- the cost parameters Node's `scrypt` uses when, as in
`encryptKeystore` and `decryptKeystore`, no options object is passed:
N = 16384, r = 8, p = 1 -/
def nodeDefaultScryptCost : ScryptCost := ⟨16384, 8, 1⟩

/-- the `kdfparams` object persisted in a keystore -/
structure KdfParams where
  salt : Bytes
  n : Nat
  r : Nat
  p : Nat
  dklen : Nat
deriving DecidableEq

/-- the `crypto` member of a keystore; `ciphertext` holds the combined
`ciphertext || authTag || iv` bytes (hex transport modelled as the
bytes themselves), `mac` the hex digest string -/
structure KeystoreCrypto where
  cipher : String
  ciphertext : Bytes
  kdf : String
  kdfparams : KdfParams
  mac : String
deriving DecidableEq

/-- the persisted keystore document -/
structure EncryptedKeystore where
  version : String
  crypto : KeystoreCrypto
  id : Bytes
  agent_id : String
deriving DecidableEq

/-- the external primitives `signing.ts` uses for keystores: scrypt
(password, salt, keylen, cost), SHA-256 with hex digest, and
AES-256-GCM encrypt (key, iv, plaintext → ciphertext × authTag) and
decrypt (key, iv, ciphertext, authTag → plaintext, `none` on
authentication failure) -/
structure KSPrims where
  scrypt : String → Bytes → Nat → ScryptCost → Bytes
  hashHex : Bytes → String
  aeadEnc : Bytes → Bytes → String → Bytes × Bytes
  aeadDec : Bytes → Bytes → Bytes → Bytes → Option String

/-- the randomness `encryptKeystore` draws: a 32-byte salt, a 16-byte
IV and the 16-byte document id -/
structure KSRandom where
  salt : Bytes
  iv : Bytes
  idBytes : Bytes

/-- the key-derivation call in `encryptKeystore`:
`scryptAsync(password, salt, 32)` — no options object, so Node's
default cost parameters apply -/
def encryptDerivedKey (P : KSPrims) (rnd : KSRandom) (password : String) : Bytes :=
  P.scrypt password rnd.salt 32 nodeDefaultScryptCost

/-- `encryptKeystore` from `signing.ts` -/
def encryptKeystoreE (P : KSPrims) (rnd : KSRandom)
    (privateKeyHex agentId password : String) : EncryptedKeystore :=
  let derivedKey := encryptDerivedKey P rnd password
  let ct := P.aeadEnc derivedKey rnd.iv privateKeyHex
  let combined := ct.1 ++ ct.2 ++ rnd.iv
  let mac := P.hashHex (((derivedKey.drop 16).take 16) ++ combined)
  { version := "1"
    crypto :=
      { cipher := "aes-256-gcm"
        ciphertext := combined
        kdf := "scrypt"
        kdfparams := { salt := rnd.salt, n := 262144, r := 8, p := 1, dklen := 32 }
        mac := mac }
    id := rnd.idBytes
    agent_id := agentId }

/-- the key-derivation call in `decryptKeystore`:
`scryptAsync(password, salt, kdfparams.dklen)` — it reads the salt and
`dklen` from the stored `kdfparams` but passes no options object, so
the stored `n`, `r`, `p` are ignored and Node's defaults apply -/
def decryptDerivedKey (P : KSPrims) (ks : EncryptedKeystore) (password : String) : Bytes :=
  P.scrypt password ks.crypto.kdfparams.salt ks.crypto.kdfparams.dklen nodeDefaultScryptCost

/-- `decryptKeystore` from `signing.ts`: version check, key
re-derivation, MAC check before decryption, component extraction from
the tail of `combined`, AEAD decryption -/
def decryptKeystoreE (P : KSPrims) (ks : EncryptedKeystore) (password : String) :
    Except String String :=
  if ks.version ≠ "1" then .error ("Unsupported keystore version: " ++ ks.version)
  else
    let derivedKey := decryptDerivedKey P ks password
    let combined := ks.crypto.ciphertext
    let computedMac := P.hashHex (((derivedKey.drop 16).take 16) ++ combined)
    if computedMac ≠ ks.crypto.mac then
      .error "Invalid password or corrupted keystore (MAC mismatch)"
    else
      let iv := combined.drop (combined.length - 16)
      let authTag := (combined.drop (combined.length - 32)).take 16
      let ciphertext := combined.take (combined.length - 32)
      match P.aeadDec derivedKey iv ciphertext authTag with
      | some privateKeyHex => .ok privateKeyHex
      | none => .error "Unable to authenticate data"

end Keystore

section ToyInstances

/-- a concrete, injective stand-in for the external scrypt / SHA-256 /
AES-GCM primitives, used to instantiate the parameterized embedding on
concrete inputs; the scrypt stand-in makes the derived key depend
visibly on the cost parameters -/
def probePrims : KSPrims :=
  { scrypt := fun password _ keylen cost => List.replicate keylen (cost.n + password.length)
    hashHex := fun bs => String.intercalate "," (bs.map (fun b => toString b))
    aeadEnc := fun _ _ m => (m.data.map Char.toNat, List.replicate 16 9)
    aeadDec := fun _ _ ct tag =>
      if tag = List.replicate 16 9 then some (String.mk (ct.map Char.ofNat)) else none }

/-- a concrete, injective stand-in for the RFC 8785 canonicalizer
(payloads are constant across the inputs it is used on, so they are not
serialized) -/
def probeCanon (u : UnsignedEventE) : String :=
  u.agent_id ++ "|" ++ u.event_type ++ "|" ++ toString u.timestamp ++ "|" ++
    (match u.prev_hash with | none => "null" | some h => h) ++ "|" ++
    (match u.correlation_id with | none => "" | some c => c)

/-- concrete stand-ins for the ledger's hash and signature primitives -/
def probeChainPrims : ChainPrims :=
  { canon := probeCanon
    hashFn := fun s => "H<" ++ s ++ ">"
    sigVerify := fun sig msg pub => sig = "SIG<" ++ msg ++ "|" ++ pub ++ ">" }

end ToyInstances

section SpecPredicates

/-- a scope value as constrained by the data model: `true` or a
constraint object -/
def WellFormedScopeVal (v : JValue) : Prop :=
  v = .bool true ∨ ∃ o, v = .obj o

/-- an event passes per-event verification: its hash is the digest of
its canonical unsigned form and its signature verifies under the
agent's public key -/
def eventOk (P : ChainPrims) (pub : String) (e : SignedEventE) : Prop :=
  P.hashFn (P.canon e.toUnsignedEventE) = e.hash
  ∧ P.sigVerify e.signature (P.canon e.toUnsignedEventE) pub = true

/-- recognizer for the chain-broken admission error -/
def AppendError.isChainBroken : AppendError → Bool
  | .chainBroken _ _ => true
  | _ => false

/-- recognizer for an admission outcome that is a chain-broken error -/
def resultChainBroken : Except AppendError EventRow → Bool
  | .error e => e.isChainBroken
  | .ok _ => false

/-- the predecessor of position `k` in the suffix walked by `chainLoop`
when the element before the suffix is `prev` -/
def prevAt (prev : Option SignedEventE) (rest : List SignedEventE) : Nat → Option SignedEventE
  | 0 => prev
  | k + 1 => rest[k]?

/-- event index `k` of a chain violates one of the three chain rules:
a non-null genesis `prev_hash`, a failed hash/signature verification,
or a broken link to the predecessor -/
def offendsAt (P : ChainPrims) (pub : String) (events : List SignedEventE) (k : Nat) :
    Prop :=
  (k = 0 ∧ ∃ e0, events.head? = some e0 ∧ e0.prev_hash ≠ none)
  ∨ (∃ e, events[k]? = some e ∧ ¬ eventOk P pub e)
  ∨ (0 < k ∧ ∃ e pe, events[k]? = some e ∧ events[k - 1]? = some pe ∧
      e.prev_hash ≠ some pe.hash)

end SpecPredicates

section Fixtures

/-- a capability that expires at instant 1000, still stored as active -/
def capAtBoundary : Capability :=
  { id := "cap-1", agentId := "agent-1", scope := [("tool:web.read", .bool true)],
    issuedBy := "owner", issuedAt := 0, expiresAt := 1000, status := .active,
    tokenHash := "tok-hash", revokedAt := none }

/-- a revoked capability -/
def capRevokedW : Capability :=
  { id := "cap-2", agentId := "agent-1", scope := [("tool:web.read", .bool true)],
    issuedBy := "owner", issuedAt := 0, expiresAt := 1000, status := .revoked,
    tokenHash := "tok-hash", revokedAt := some 10 }

/-- the capability of spec scenario 5: one boolean grant and one
constrained grant -/
def capScopeW : Capability :=
  { id := "cap-3", agentId := "A",
    scope := [("tool:web.read", .bool true),
              ("tool:wallet.send", .obj [("max_value", .num 100)])],
    issuedBy := "owner", issuedAt := 0, expiresAt := 100, status := .active,
    tokenHash := "tok-hash-3", revokedAt := none }

/-- an active registered agent for the authenticator -/
def agentW : Agent := ⟨"agent-w", "pk-w", .active⟩

/-- an active registered agent for the ledger -/
def agentOne : Agent := ⟨"agent-1", "pk-1", .active⟩

/-- a ledger holding one agent and no events -/
def ledgerStart : LedgerState := ⟨[agentOne], []⟩

/-- the unsigned event a client canonicalized and signed, embedding its
own (stale) view `prev_hash = "aa"` -/
def clientUnsignedB : UnsignedEventE :=
  { agent_id := "agent-1", event_type := "input_received", timestamp := 42,
    prev_hash := some "aa", payload := .obj [], correlation_id := none }

/-- the unsigned event the server rebuilds for the same request,
substituting its derived `prev_hash = null` -/
def serverUnsignedB : UnsignedEventE :=
  { clientUnsignedB with prev_hash := none }

/-- the admission request carrying the client's hash and signature
(computed over the client's view of `prev_hash`) -/
def reqBad : AppendEventRequest :=
  { agentId := "agent-1", eventType := "input_received", timestamp := some 42,
    payload := .obj [], correlationId := none,
    hash := probeChainPrims.hashFn (probeCanon clientUnsignedB),
    signature := "SIG<" ++ probeCanon clientUnsignedB ++ "|pk-1>" }

end Fixtures

section Helpers

/-- the implementation's `Math.max(0, Math.min(100, x))` equals the
spec's `clamp(x, 0, 100)` -/
theorem max_min_eq_clampSpec (x : ℚ) : max 0 (min 100 x) = clampSpec x 0 100 := by
  unfold clampSpec
  split_ifs with h1 h2
  · have hx : min 100 x = x := min_eq_right (le_trans h1.le (by norm_num))
    rw [hx, max_eq_left h1.le]
  · rw [min_eq_left h2.le, max_eq_right (by norm_num)]
  · rw [min_eq_right (not_lt.mp h2), max_eq_right (not_lt.mp h1)]

end Helpers

/-- C5: `record_outcome` sets `overall_score` to
`clamp(overall_score + Δ, 0, 100)`, where Δ is the caller-supplied
custom impact when given and otherwise the table value (success +0.5,
partial_success +0.2, failure −0.3, user_corrected −0.5, harmful −2.0);
in particular, recording a `harmful` outcome at `overall_score = 0`
leaves the score at 0. -/
theorem C5_recordOutcome_clamps_score :
    (∀ (r : ReputationRow) (t : OutcomeType) (custom : Option ℚ),
      (recordOutcome r t custom).overallScore =
        clampSpec (r.overallScore + custom.getD (OUTCOME_IMPACT_SCORES t)) 0 100)
    ∧ (recordOutcome { initialReputation with overallScore := 0 } .harmful
        none).overallScore = 0 := by
  constructor
  · intro r t custom
    show max 0 (min 100 (r.overallScore + custom.getD (OUTCOME_IMPACT_SCORES t))) = _
    exact max_min_eq_clampSpec _
  · show max 0 (min 100 (0 + OUTCOME_IMPACT_SCORES .harmful)) = 0
    rw [show OUTCOME_IMPACT_SCORES .harmful = -2 from rfl]
    norm_num

/-- C3: `encryptKeystore` persists kdfparams claiming
`N = 262144, r = 8, p = 1`, but its scrypt call passes no options and
therefore derives the key with Node's default cost
`N = 16384, r = 8, p = 1`; `decryptKeystore` likewise derives with the
defaults (reading only `salt` and `dklen` from the recorded params).
The recorded and used parameters differ, observably for any
cost-sensitive scrypt, refuting the claim that the recorded parameters
are the ones used. -/
theorem C3_kdfparams_recorded_but_not_used :
    (∀ (P : KSPrims) (rnd : KSRandom) (k a pwd : String),
      (encryptKeystoreE P rnd k a pwd).crypto.kdfparams =
        { salt := rnd.salt, n := 262144, r := 8, p := 1, dklen := 32 }
      ∧ encryptDerivedKey P rnd pwd = P.scrypt pwd rnd.salt 32 nodeDefaultScryptCost
      ∧ decryptDerivedKey P (encryptKeystoreE P rnd k a pwd) pwd =
          P.scrypt pwd rnd.salt 32 nodeDefaultScryptCost)
    ∧ nodeDefaultScryptCost ≠ { n := 262144, r := 8, p := 1 }
    ∧ probePrims.scrypt "pw" [] 32 nodeDefaultScryptCost ≠
        probePrims.scrypt "pw" [] 32 { n := 262144, r := 8, p := 1 } := by
  exact ⟨fun P rnd k a pwd => ⟨rfl, rfl, rfl⟩, by decide, by decide⟩

/-- C10: a GET /events query with `limit=0` parses to the number 0,
which the repository treats as an absent limit (its `if (filters.limit)`
guard is falsy at 0), so every matching event is returned; the default
of 100 arises only when the `limit` parameter is omitted or the empty
string, every other value being handed to `parseInt`. -/
theorem C10_limit_zero_returns_all :
    (∀ (store : List EventRow) (f : EventFilters),
      queryEvents store { f with limit := some (some 0) } =
        queryEvents store { f with limit := none })
    ∧ routeParsedLimit (some "0") = some 0
    ∧ routeParsedLimit none = some 100
    ∧ routeParsedLimit (some "") = some 100
    ∧ (∀ s, s ≠ "" → routeParsedLimit (some s) = parseIntJS s)
    ∧ (∀ (store : List EventRow) (f : EventFilters),
        f.limit = none → f.offset = none →
        queryEvents store f = sortByTimestampDesc (store.filter (matchesFilters f))) := by
  refine ⟨fun store f => rfl, by decide, rfl, rfl, ?_, ?_⟩
  · intro s hs
    simp [routeParsedLimit, hs]
  · intro store f h1 h2
    simp only [queryEvents, h1, h2]

/-- C10 witness: the route hands a non-empty `limit` string to
`parseInt`, and a filterless, limitless query returns the full ordered
store. -/
theorem C10_witness :
    routeParsedLimit (some "7") = parseIntJS "7"
    ∧ queryEvents [] {} =
        sortByTimestampDesc (List.filter (matchesFilters {}) []) := by
  exact ⟨C10_limit_zero_returns_all.2.2.2.2.1 "7" (by decide),
    C10_limit_zero_returns_all.2.2.2.2.2 [] {} rfl rfl⟩

/-- C2 counterexample: a capability stored as `active` whose
`expires_at` equals the current instant exactly validates as
`valid = true` — the code's expiry comparison `new Date() > expiresAt`
is strict, so the claimed inclusive bound (`expires_at ≤ now` invalid)
fails at equality. -/
theorem C2_counterexample_inclusive_bound :
    (validateToken [capAtBoundary] (fun s => s ++ "-hash") "tok" 1000).valid = true := by
  rfl

/-- C2 amended: `validateToken` returns `valid = false` with a reason
when the capability is not found by the hashed token, has status
`revoked`, has status `expired`, or has `expires_at < now` (strict
bound); otherwise — status `active` and `now ≤ expires_at`, including
equality — it returns the record as valid. -/
theorem C2_validateToken_amended (caps : List Capability) (hashFn : String → String)
    (token : String) (now : Int) :
    ((validateToken caps hashFn token now).valid = true ↔
      ∃ cap, findByTokenHash caps (hashFn token) = some cap ∧
        cap.status = .active ∧ now ≤ cap.expiresAt)
    ∧ (findByTokenHash caps (hashFn token) = none →
        validateToken caps hashFn token now = ⟨false, none, some "Token not found"⟩)
    ∧ (∀ cap, findByTokenHash caps (hashFn token) = some cap → cap.status = .revoked →
        validateToken caps hashFn token now = ⟨false, some cap, some "Token revoked"⟩)
    ∧ (∀ cap, findByTokenHash caps (hashFn token) = some cap → cap.status ≠ .revoked →
        (cap.status = .expired ∨ now > cap.expiresAt) →
        validateToken caps hashFn token now = ⟨false, some cap, some "Token expired"⟩)
    ∧ (∀ cap, findByTokenHash caps (hashFn token) = some cap → cap.status = .active →
        now ≤ cap.expiresAt →
        validateToken caps hashFn token now = ⟨true, some cap, none⟩) := by
  refine ⟨?_, ?_, ?_, ?_, ?_⟩
  · simp only [validateToken]
    cases hfind : findByTokenHash caps (hashFn token) with
    | none => simp
    | some cap =>
      dsimp only
      by_cases hrev : cap.status = .revoked
      · simp [hrev]
      · by_cases hexp : cap.status = .expired ∨ now > cap.expiresAt
        · rw [if_neg hrev, if_pos hexp]
          simp only [Option.some.injEq, exists_eq_left']
          constructor
          · intro h; exact absurd h (by simp)
          · rintro ⟨hact, hle⟩
            rcases hexp with hst | hgt
            · rw [hact] at hst; exact absurd hst (by simp)
            · exact absurd hle (not_le.mpr hgt)
        · rw [if_neg hrev, if_neg hexp]
          push_neg at hexp
          have hact : cap.status = .active := by
            cases h : cap.status
            · rfl
            · exact absurd h hexp.1
            · exact absurd h hrev
          simp [hact, hexp.2]
  · intro hfind
    simp only [validateToken]
    rw [hfind]
  · intro cap hfind hrev
    simp only [validateToken]
    rw [hfind]
    dsimp only
    rw [if_pos hrev]
  · intro cap hfind hrev hexp
    simp only [validateToken]
    rw [hfind]
    dsimp only
    rw [if_neg hrev, if_pos hexp]
  · intro cap hfind hact hle
    simp only [validateToken]
    rw [hfind]
    dsimp only
    rw [if_neg (by rw [hact]; simp),
      if_neg (by rw [hact]; simp; exact hle)]

/-- C2 witness: the amended characterization applied to a concrete
revoked capability. -/
theorem C2_witness :
    validateToken [capRevokedW] (fun s => s ++ "-hash") "tok" 5 =
      ⟨false, some capRevokedW, some "Token revoked"⟩ :=
  (C2_validateToken_amended [capRevokedW] (fun s => s ++ "-hash") "tok" 5).2.2.1
    capRevokedW rfl rfl

/-- C7: on the agent-signature path, with a parseable timestamp, a
registered active agent and a valid signature, the request is accepted
exactly when `|now − ts| ≤ W`; a skew of exactly `W` is accepted and a
skew of `W + 1` is rejected as expired. -/
theorem C7_timestamp_window (sigVerify : String → String → String → Bool)
    (agents : List Agent) (window now requestTime : Int)
    (aid ts sig method path body : String) (agent : Agent)
    (hts : parseIntJS ts = some requestTime)
    (haid : aid ≠ "") (hsig : sig ≠ "")
    (hfind : findAgentById agents aid = some agent)
    (hactive : agent.status = .active)
    (hsigok : sigVerify sig (method ++ ":" ++ path ++ ":" ++ body ++ ":" ++ ts)
        agent.publicKey = true) :
    (verifyAgentSignatureE sigVerify agents window now (some aid) (some ts) (some sig)
        method path body = .ok agent
      ↔ ((now - requestTime).natAbs : Int) ≤ window)
    ∧ (((now - requestTime).natAbs : Int) = window + 1 →
        verifyAgentSignatureE sigVerify agents window now (some aid) (some ts) (some sig)
          method path body = .timestampExpired window) := by
  have hts' : ts ≠ "" := by
    intro h
    rw [h] at hts
    exact Option.noConfusion hts
  have hhdr : ¬ ¬ (strTruthy (some aid) ∧ strTruthy (some ts) ∧ strTruthy (some sig)) := by
    simp [strTruthy, haid, hts', hsig]
  simp only [verifyAgentSignatureE, Option.getD_some]
  rw [if_neg hhdr, hts]
  dsimp only
  constructor
  · by_cases hwin : ((now - requestTime).natAbs : Int) > window
    · rw [if_pos hwin]
      constructor
      · intro h; exact absurd h (by simp)
      · intro h; exact absurd h (not_le.mpr hwin)
    · rw [if_neg hwin, hfind]
      dsimp only
      rw [if_neg (by rw [hactive]; simp), if_pos hsigok]
      exact iff_of_true rfl (not_lt.mp hwin)
  · intro heq
    rw [if_pos (by rw [heq]; exact lt_add_one window)]

/-- C7 witness: the boundary instances with the default window
`W = 300`: a skew of exactly 300 seconds is accepted, 301 is rejected
as expired. -/
theorem C7_witness :
    verifyAgentSignatureE (fun _ _ _ => true) [agentW] 300 1000
      (some "agent-w") (some "700") (some "sig") "POST" "/api/events" "" = .ok agentW
    ∧ verifyAgentSignatureE (fun _ _ _ => true) [agentW] 300 1000
      (some "agent-w") (some "699") (some "sig") "POST" "/api/events" "" =
        .timestampExpired 300 := by
  constructor
  · exact (C7_timestamp_window (fun _ _ _ => true) [agentW] 300 1000 700
      "agent-w" "700" "sig" "POST" "/api/events" "" agentW (by decide)
      (by decide) (by decide) rfl rfl rfl).1.mpr (by decide)
  · exact (C7_timestamp_window (fun _ _ _ => true) [agentW] 300 1000 699
      "agent-w" "699" "sig" "POST" "/api/events" "" agentW (by decide)
      (by decide) (by decide) rfl rfl rfl).2 (by decide)

/-- closed form of the success rate after one `record_outcome` call -/
theorem successRate_recordOutcome (r : ReputationRow) (t : OutcomeType) (c : Option ℚ) :
    (recordOutcome r t c).successRate =
      (r.successRate * r.totalActions + (if isSuccessOutcome t then 1 else 0)) /
        ((r.totalActions : ℚ) + 1) := by
  cases t <;> simp [recordOutcome, isSuccessOutcome]

/-- closed form of the failure rate after one `record_outcome` call -/
theorem failureRate_recordOutcome (r : ReputationRow) (t : OutcomeType) (c : Option ℚ) :
    (recordOutcome r t c).failureRate =
      (r.failureRate * r.totalActions + (if isFailureOutcome t then 1 else 0)) /
        ((r.totalActions : ℚ) + 1) := by
  cases t <;> simp [recordOutcome, isFailureOutcome]

/-- the scaled rates of the row reached by folding `record_outcome`
over a report list, starting from a fresh row, count exactly the
success-class and failure-class reports -/
theorem applyOutcomes_counts (os : List (OutcomeType × Option ℚ)) :
    (applyOutcomes initialReputation os).totalActions = os.length
    ∧ (applyOutcomes initialReputation os).successRate * (os.length : ℚ) =
        countSuccesses os
    ∧ (applyOutcomes initialReputation os).failureRate * (os.length : ℚ) =
        countFailures os := by
  induction os using List.reverseRecOn with
  | nil =>
    refine ⟨rfl, ?_, ?_⟩ <;>
      simp [applyOutcomes, initialReputation, countSuccesses, countFailures]
  | append_singleton os oc ih =>
    obtain ⟨ih1, ih2, ih3⟩ := ih
    have happ : applyOutcomes initialReputation (os ++ [oc]) =
        recordOutcome (applyOutcomes initialReputation os) oc.1 oc.2 := by
      simp [applyOutcomes]
    have hne : ((os.length : ℚ) + 1) ≠ 0 := by positivity
    refine ⟨?_, ?_, ?_⟩
    · rw [happ]
      show (applyOutcomes initialReputation os).totalActions + 1 = _
      rw [ih1, List.length_append, List.length_singleton]
    · rw [happ, successRate_recordOutcome, ih1, List.length_append, List.length_singleton]
      push_cast
      rw [div_mul_cancel₀ _ hne, ih2]
      have : countSuccesses (os ++ [oc]) =
          countSuccesses os + (if isSuccessOutcome oc.1 then 1 else 0) := by
        simp only [countSuccesses, List.filter_append, List.length_append]
        cases h : isSuccessOutcome oc.1 <;> simp [h]
      rw [this]
      push_cast
      cases h : isSuccessOutcome oc.1 <;> simp [h]
    · rw [happ, failureRate_recordOutcome, ih1, List.length_append, List.length_singleton]
      push_cast
      rw [div_mul_cancel₀ _ hne, ih3]
      have : countFailures (os ++ [oc]) =
          countFailures os + (if isFailureOutcome oc.1 then 1 else 0) := by
        simp only [countFailures, List.filter_append, List.length_append]
        cases h : isFailureOutcome oc.1 <;> simp [h]
      rw [this]
      push_cast
      cases h : isFailureOutcome oc.1 <;> simp [h]

/-- C6: every `record_outcome` call increments `total_actions` by one
and shifts the scaled success/failure rates by the outcome's class
indicator (current counts taken as `rate·N`), recomputing each rate as
`count/(N+1)`; consequently every row reachable from a fresh reputation
row has `success_rate` and `failure_rate` equal to the running
proportions of the two outcome classes over `total_actions`, and both
rates lie in `[0, 1]`. -/
theorem C6_rates_running_proportions :
    (∀ (r : ReputationRow) (t : OutcomeType) (c : Option ℚ),
      (recordOutcome r t c).totalActions = r.totalActions + 1
      ∧ (recordOutcome r t c).successRate * ((r.totalActions : ℚ) + 1) =
          r.successRate * r.totalActions + (if isSuccessOutcome t then 1 else 0)
      ∧ (recordOutcome r t c).failureRate * ((r.totalActions : ℚ) + 1) =
          r.failureRate * r.totalActions + (if isFailureOutcome t then 1 else 0))
    ∧ (∀ os : List (OutcomeType × Option ℚ),
        (applyOutcomes initialReputation os).totalActions = os.length
        ∧ (applyOutcomes initialReputation os).successRate * (os.length : ℚ) =
            countSuccesses os
        ∧ (applyOutcomes initialReputation os).failureRate * (os.length : ℚ) =
            countFailures os
        ∧ 0 ≤ (applyOutcomes initialReputation os).successRate
        ∧ (applyOutcomes initialReputation os).successRate ≤ 1
        ∧ 0 ≤ (applyOutcomes initialReputation os).failureRate
        ∧ (applyOutcomes initialReputation os).failureRate ≤ 1) := by
  have hne : ∀ r : ReputationRow, ((r.totalActions : ℚ) + 1) ≠ 0 := by
    intro r; positivity
  constructor
  · intro r t c
    refine ⟨rfl, ?_, ?_⟩
    · rw [successRate_recordOutcome, div_mul_cancel₀ _ (hne r)]
    · rw [failureRate_recordOutcome, div_mul_cancel₀ _ (hne r)]
  · intro os
    obtain ⟨h1, h2, h3⟩ := applyOutcomes_counts os
    refine ⟨h1, h2, h3, ?_, ?_, ?_, ?_⟩ <;>
      rcases Nat.eq_zero_or_pos os.length with hz | hpos
    · rw [List.length_eq_zero.mp hz]; norm_num [applyOutcomes, initialReputation]
    · have hq : (0 : ℚ) < os.length := by exact_mod_cast hpos
      have := (eq_div_iff (ne_of_gt hq)).mpr h2
      rw [this]
      positivity
    · rw [List.length_eq_zero.mp hz]; norm_num [applyOutcomes, initialReputation]
    · have hq : (0 : ℚ) < os.length := by exact_mod_cast hpos
      have heq := (eq_div_iff (ne_of_gt hq)).mpr h2
      rw [heq, div_le_one hq]
      exact_mod_cast List.length_filter_le _ os
    · rw [List.length_eq_zero.mp hz]; norm_num [applyOutcomes, initialReputation]
    · have hq : (0 : ℚ) < os.length := by exact_mod_cast hpos
      have heq := (eq_div_iff (ne_of_gt hq)).mpr h3
      rw [heq]
      positivity
    · rw [List.length_eq_zero.mp hz]; norm_num [applyOutcomes, initialReputation]
    · have hq : (0 : ℚ) < os.length := by exact_mod_cast hpos
      have heq := (eq_div_iff (ne_of_gt hq)).mpr h3
      rw [heq, div_le_one hq]
      exact_mod_cast List.length_filter_le _ os

/-- a well-formed scope value is truthy -/
theorem WellFormedScopeVal.truthy {v : JValue} (h : WellFormedScopeVal v) :
    v.truthy = true := by
  rcases h with rfl | ⟨o, rfl⟩ <;> rfl

/-- for a well-formed scope, the JS truthiness test on `scope[k]`
coincides with presence of the key -/
theorem jsGetTruthy_iff (scope : List (String × JValue)) (k : String)
    (hwf : ∀ kv ∈ scope, WellFormedScopeVal kv.2) :
    jsGetTruthy scope k = true ↔ ∃ v, scopeGet scope k = some v := by
  unfold jsGetTruthy
  cases h : scopeGet scope k with
  | none => simp
  | some v =>
    have hv : WellFormedScopeVal v := by
      have h' := h
      simp only [scopeGet] at h'
      obtain ⟨kv, hfind, hkv⟩ := Option.map_eq_some'.mp h'
      have hmem := List.mem_of_find?_eq_some hfind
      have := hwf kv hmem
      rwa [hkv] at this
    simp [hv.truthy]

/-- characterization of the `checkPermission` scan over a capability
list whose scope values are well-formed -/
theorem checkPermissionLoop_spec (action : String) (l : List Capability)
    (hwf : ∀ c ∈ l, ∀ kv ∈ c.scope, WellFormedScopeVal kv.2) :
    ((checkPermissionLoop action l).allowed = true ↔
      ∃ c ∈ l, (∃ v, scopeGet c.scope action = some v) ∨
        (∃ v, scopeGet c.scope (wildcardKey action) = some v))
    ∧ ((checkPermissionLoop action l).allowed = true →
        ∃ c ∈ l, ∃ v,
          (scopeGet c.scope action = some v ∨
            scopeGet c.scope (wildcardKey action) = some v)
          ∧ (checkPermissionLoop action l).scope = some v)
    ∧ ((checkPermissionLoop action l).allowed = false →
        (checkPermissionLoop action l).reason =
          some ("No capability grants permission for: " ++ action)) := by
  induction l with
  | nil => simp [checkPermissionLoop]
  | cons cap rest ih =>
    have hwfc : ∀ kv ∈ cap.scope, WellFormedScopeVal kv.2 :=
      hwf cap (List.mem_cons_self _ _)
    have hwfr : ∀ c ∈ rest, ∀ kv ∈ c.scope, WellFormedScopeVal kv.2 :=
      fun c hc => hwf c (List.mem_cons_of_mem _ hc)
    obtain ⟨ih1, ih2, ih3⟩ := ih hwfr
    by_cases h1 : jsGetTruthy cap.scope action = true
    · obtain ⟨v, hv⟩ := (jsGetTruthy_iff _ _ hwfc).mp h1
      have hres : checkPermissionLoop action (cap :: rest) =
          ⟨true, scopeGet cap.scope action, none⟩ := by
        simp only [checkPermissionLoop, if_pos h1]
      rw [hres]
      refine ⟨iff_of_true rfl ⟨cap, List.mem_cons_self _ _, Or.inl ⟨v, hv⟩⟩, ?_, ?_⟩
      · intro _
        exact ⟨cap, List.mem_cons_self _ _, v, Or.inl hv, hv⟩
      · intro h
        exact absurd h (by simp)
    · by_cases h2 : jsGetTruthy cap.scope (wildcardKey action) = true
      · obtain ⟨v, hv⟩ := (jsGetTruthy_iff _ _ hwfc).mp h2
        have hres : checkPermissionLoop action (cap :: rest) =
            ⟨true, scopeGet cap.scope (wildcardKey action), none⟩ := by
          simp only [checkPermissionLoop, if_neg h1, if_pos h2]
        rw [hres]
        refine ⟨iff_of_true rfl ⟨cap, List.mem_cons_self _ _, Or.inr ⟨v, hv⟩⟩, ?_, ?_⟩
        · intro _
          exact ⟨cap, List.mem_cons_self _ _, v, Or.inr hv, hv⟩
        · intro h
          exact absurd h (by simp)
      · have hna : ¬ ∃ v, scopeGet cap.scope action = some v :=
          fun hv => h1 ((jsGetTruthy_iff _ _ hwfc).mpr hv)
        have hnw : ¬ ∃ v, scopeGet cap.scope (wildcardKey action) = some v :=
          fun hv => h2 ((jsGetTruthy_iff _ _ hwfc).mpr hv)
        simp only [checkPermissionLoop, if_neg h1, if_neg h2]
        refine ⟨?_, ?_, ih3⟩
        · rw [ih1]
          constructor
          · rintro ⟨c, hc, hval⟩
            exact ⟨c, List.mem_cons_of_mem _ hc, hval⟩
          · rintro ⟨c, hc, hval⟩
            rcases List.mem_cons.mp hc with rfl | hc'
            · rcases hval with h | h
              · exact absurd h hna
              · exact absurd h hnw
            · exact ⟨c, hc', hval⟩
        · intro h
          obtain ⟨c, hc, hrest⟩ := ih2 h
          exact ⟨c, List.mem_cons_of_mem _ hc, hrest⟩

/-- C8: `checkPermission(agent_id, action)` grants exactly when some
active, non-expired capability of the agent has a scope containing the
key `action` itself or the wildcard key `"<namespace>:*"` for
`action`'s namespace (scope values being `true` or constraint objects,
per the data model); on grant the result carries the matched scope
value, and on denial it carries a reason. -/
theorem C8_checkPermission_correct (caps : List Capability) (agentId action : String)
    (now : Int)
    (hwf : ∀ c ∈ findActiveForAgent caps agentId now, ∀ kv ∈ c.scope,
      WellFormedScopeVal kv.2) :
    ((checkPermission caps agentId action now).allowed = true ↔
      ∃ c ∈ findActiveForAgent caps agentId now,
        (∃ v, scopeGet c.scope action = some v) ∨
        (∃ v, scopeGet c.scope (wildcardKey action) = some v))
    ∧ ((checkPermission caps agentId action now).allowed = true →
        ∃ c ∈ findActiveForAgent caps agentId now, ∃ v,
          (scopeGet c.scope action = some v ∨
            scopeGet c.scope (wildcardKey action) = some v)
          ∧ (checkPermission caps agentId action now).scope = some v)
    ∧ ((checkPermission caps agentId action now).allowed = false →
        (checkPermission caps agentId action now).reason =
          some ("No capability grants permission for: " ++ action)) :=
  checkPermissionLoop_spec action (findActiveForAgent caps agentId now) hwf

/-- C8 witness: spec scenario 5 — the wallet action is granted carrying
the constraint object, an unrelated action is denied with the reason. -/
theorem C8_witness :
    (checkPermission [capScopeW] "A" "tool:wallet.send" 5).allowed = true
    ∧ (checkPermission [capScopeW] "A" "tool:wallet.send" 5).scope =
        some (.obj [("max_value", .num 100)])
    ∧ (checkPermission [capScopeW] "A" "tool:x.post" 5).reason =
        some ("No capability grants permission for: " ++ "tool:x.post") := by
  have hwf : ∀ c ∈ findActiveForAgent [capScopeW] "A" 5, ∀ kv ∈ c.scope,
      WellFormedScopeVal kv.2 := by
    intro c hc kv hkv
    have hc' : c = capScopeW := by
      rw [show findActiveForAgent [capScopeW] "A" 5 = [capScopeW] from rfl] at hc
      simpa using hc
    subst hc'
    have hkv' : kv = ("tool:web.read", JValue.bool true) ∨
        kv = ("tool:wallet.send", JValue.obj [("max_value", JValue.num 100)]) := by
      simpa [capScopeW] using hkv
    rcases hkv' with rfl | rfl
    · exact .inl rfl
    · exact .inr ⟨_, rfl⟩
  refine ⟨?_, rfl, ?_⟩
  · exact (C8_checkPermission_correct [capScopeW] "A" "tool:wallet.send" 5 hwf).1.mpr
      ⟨capScopeW,
        by rw [show findActiveForAgent [capScopeW] "A" 5 = [capScopeW] from rfl]
           exact List.mem_singleton_self _,
        Or.inl ⟨JValue.obj [("max_value", JValue.num 100)], rfl⟩⟩
  · exact (C8_checkPermission_correct [capScopeW] "A" "tool:x.post" 5 hwf).2.2 rfl

/-- C1: the admission pipeline's chain check is dead code — step 3
rebuilds the signed event with `prev_hash` set to the server-derived
value, so step 5's comparison checks that value against itself and the
chain-broken error (with its two reported hashes) can never be thrown;
a request whose client-signed `prev_hash` differs from the server's is
instead rejected by the hash/signature verification of step 4, with
nothing persisted, as the concrete run shows. -/
theorem C1_chain_broken_unreachable :
    (∀ (P : ChainPrims) (st : LedgerState) (req : AppendEventRequest) (now : Int),
      resultChainBroken (appendEvent P st req now).2 = false)
    ∧ appendEvent probeChainPrims ledgerStart reqBad 0 =
        (ledgerStart, .error (.verificationFailed
          [.hashMismatch (probeChainPrims.hashFn (probeCanon clientUnsignedB))
              (probeChainPrims.hashFn (probeCanon serverUnsignedB)),
            .invalidSignature])) := by
  constructor
  · intro P st req now
    simp only [appendEvent]
    cases hA : findAgentById st.agents req.agentId with
    | none => simp [resultChainBroken, AppendError.isChainBroken]
    | some agent =>
      dsimp only
      split_ifs with h1 h2 h3 <;>
        first
          | exact absurd rfl h3
          | simp [resultChainBroken, AppendError.isChainBroken]
  · rfl

/-- per-event verification succeeds exactly when hash and signature
both check out -/
theorem verifyEventE_valid_iff (P : ChainPrims) (e : SignedEventE) (pub : String) :
    (verifyEventE P e pub).valid = true ↔ eventOk P pub e := by
  simp only [verifyEventE, eventOk]
  by_cases h1 : P.hashFn (P.canon e.toUnsignedEventE) = e.hash <;>
    by_cases h2 : P.sigVerify e.signature (P.canon e.toUnsignedEventE) pub = true <;>
      simp [h1, h2]

/-- the predecessor function after stepping into the tail of a cons -/
theorem prevAt_some_cons (e0 : SignedEventE) (rest : List SignedEventE) (k : Nat) :
    prevAt (some e0) rest k = (e0 :: rest)[k]? := by
  cases k <;> simp [prevAt]

/-- membership characterization of the issues accumulated by
`chainLoop` on a suffix starting at absolute index `i` with predecessor
`prev` -/
theorem chainLoop_mem (P : ChainPrims) (pub : String) (rest : List SignedEventE) :
    ∀ (i : Nat) (prev : Option SignedEventE) (issue : ChainIssue),
    issue ∈ chainLoop P pub i prev rest ↔
      ((∃ k e, rest[k]? = some e ∧ ¬ (verifyEventE P e pub).valid = true ∧
          issue = .eventInvalid (i + k) (verifyEventE P e pub).errors)
       ∨ (∃ k e pe, rest[k]? = some e ∧ prevAt prev rest k = some pe ∧
          e.prev_hash ≠ some pe.hash ∧
          issue = .prevHashMismatch (i + k) pe.hash e.prev_hash)) := by
  induction rest with
  | nil =>
    intro i prev issue
    simp [chainLoop]
  | cons e0 rest ih =>
    intro i prev issue
    simp only [chainLoop, List.mem_append]
    constructor
    · rintro ((h | h) | h)
      · by_cases hv : (verifyEventE P e0 pub).valid = true
        · rw [if_neg (not_not_intro hv)] at h
          exact absurd h (List.not_mem_nil _)
        · rw [if_pos hv] at h
          rcases List.mem_singleton.mp h with rfl
          exact Or.inl ⟨0, e0, by simp, hv, by simp⟩
      · cases prev with
        | none => exact absurd h (List.not_mem_nil _)
        | some pe =>
          dsimp only at h
          by_cases hl : e0.prev_hash ≠ some pe.hash
          · rw [if_pos hl] at h
            rcases List.mem_singleton.mp h with rfl
            exact Or.inr ⟨0, e0, pe, by simp, rfl, hl, by simp⟩
          · rw [if_neg hl] at h
            exact absurd h (List.not_mem_nil _)
      · rcases (ih (i + 1) (some e0) issue).mp h with
          ⟨k, e, hk, hv, heq⟩ | ⟨k, e, pe, hk, hp, hne, heq⟩
        · refine Or.inl ⟨k + 1, e, by simpa using hk, hv, ?_⟩
          rw [show i + (k + 1) = i + 1 + k by omega]
          exact heq
        · refine Or.inr ⟨k + 1, e, pe, by simpa using hk, ?_, hne, ?_⟩
          · rw [show prevAt prev (e0 :: rest) (k + 1) = (e0 :: rest)[k]? from rfl,
              ← prevAt_some_cons]
            exact hp
          · rw [show i + (k + 1) = i + 1 + k by omega]
            exact heq
    · rintro (⟨k, e, hk, hv, heq⟩ | ⟨k, e, pe, hk, hp, hne, heq⟩)
      · cases k with
        | zero =>
          have he : e0 = e := by simpa using hk
          subst he
          refine Or.inl (Or.inl ?_)
          rw [if_pos hv]
          simp only [Nat.add_zero] at heq
          simp [heq]
        | succ k =>
          refine Or.inr ((ih (i + 1) (some e0) issue).mpr (Or.inl ⟨k, e, by simpa using hk, hv, ?_⟩))
          rw [show i + 1 + k = i + (k + 1) by omega]
          exact heq
      · cases k with
        | zero =>
          have he : e0 = e := by simpa using hk
          subst he
          have hpe : prev = some pe := hp
          subst hpe
          refine Or.inl (Or.inr ?_)
          dsimp only
          rw [if_pos hne]
          simp only [Nat.add_zero] at heq
          simp [heq]
        | succ k =>
          refine Or.inr ((ih (i + 1) (some e0) issue).mpr (Or.inr ⟨k, e, pe, by simpa using hk, ?_, hne, ?_⟩))
          · rw [prevAt_some_cons]
            exact hp
          · rw [show i + 1 + k = i + (k + 1) by omega]
            exact heq

/-- every issue accumulated from a suffix starting at index `i` has
index at least `i` -/
theorem chainLoop_index_ge (P : ChainPrims) (pub : String) (rest : List SignedEventE)
    (i : Nat) (prev : Option SignedEventE) (issue : ChainIssue)
    (h : issue ∈ chainLoop P pub i prev rest) : i ≤ issue.index := by
  rcases (chainLoop_mem P pub rest i prev issue).mp h with
    ⟨k, e, _, _, rfl⟩ | ⟨k, e, pe, _, _, _, rfl⟩
  · exact Nat.le_add_right i k
  · exact Nat.le_add_right i k

/-- the issues accumulated by `chainLoop` carry nondecreasing indices -/
theorem chainLoop_sorted (P : ChainPrims) (pub : String) (rest : List SignedEventE) :
    ∀ (i : Nat) (prev : Option SignedEventE),
    (chainLoop P pub i prev rest).Pairwise (fun a b => a.index ≤ b.index) := by
  induction rest with
  | nil => intro i prev; simp [chainLoop]
  | cons e0 rest ih =>
    intro i prev
    have hC : ∀ c ∈ chainLoop P pub (i + 1) (some e0) rest, i + 1 ≤ c.index :=
      fun c hc => chainLoop_index_ge P pub rest (i + 1) (some e0) c hc
    simp only [chainLoop]
    have hAB : ∀ a, a ∈ (if ¬ (verifyEventE P e0 pub).valid = true then
          [ChainIssue.eventInvalid i (verifyEventE P e0 pub).errors] else []) ++
        (match prev with
          | none => []
          | some pe => if e0.prev_hash ≠ some pe.hash then
              [ChainIssue.prevHashMismatch i pe.hash e0.prev_hash] else []) →
        a.index = i := by
      intro a ha
      rcases List.mem_append.mp ha with ha | ha
      · split at ha
        · rcases List.mem_singleton.mp ha with rfl; rfl
        · simp at ha
      · cases prev with
        | none => simp at ha
        | some pe =>
          dsimp only at ha
          split at ha
          · rcases List.mem_singleton.mp ha with rfl; rfl
          · simp at ha
    rw [List.pairwise_append]
    refine ⟨?_, ih (i + 1) (some e0), ?_⟩
    · rw [List.pairwise_append]
      refine ⟨?_, ?_, ?_⟩
      · split <;> simp
      · cases prev with
        | none => simp
        | some pe => dsimp only; split <;> simp
      · intro a ha b hb
        have hai : a.index = i := hAB a (List.mem_append.mpr (Or.inl ha))
        have hbi : b.index = i := hAB b (List.mem_append.mpr (Or.inr hb))
        rw [hai, hbi]
    · intro a ha c hc
      rw [hAB a ha]
      exact Nat.le_of_succ_le (hC c hc)

/-- soundness: every accumulated issue designates an actual violation
at its index -/
theorem verifyEventChainE_issue_sound (P : ChainPrims) (events : List SignedEventE)
    (pub : String) (issue : ChainIssue)
    (h : issue ∈ (verifyEventChainE P events pub).errors) :
    offendsAt P pub events issue.index := by
  cases events with
  | nil => simp [verifyEventChainE] at h
  | cons e0 rest =>
    simp only [verifyEventChainE] at h
    rcases List.mem_append.mp h with h | h
    · by_cases hg : e0.prev_hash ≠ none
      · rw [if_pos hg] at h
        rcases List.mem_singleton.mp h with rfl
        exact Or.inl ⟨rfl, e0, rfl, hg⟩
      · rw [if_neg hg] at h
        exact absurd h (List.not_mem_nil _)
    · rcases (chainLoop_mem P pub (e0 :: rest) 0 none issue).mp h with
        ⟨k, e, hk, hv, rfl⟩ | ⟨k, e, pe, hk, hp, hne, rfl⟩
      · refine Or.inr (Or.inl ⟨e, ?_, ?_⟩)
        · simpa [ChainIssue.index] using hk
        · rw [verifyEventE_valid_iff] at hv
          exact hv
      · cases k with
        | zero => exact absurd hp (by simp [prevAt])
        | succ k =>
          refine Or.inr (Or.inr ⟨by simp [ChainIssue.index], e, pe, ?_, ?_, hne⟩)
          · simpa [ChainIssue.index] using hk
          · simpa [ChainIssue.index, prevAt] using hp

/-- completeness: every violated chain rule yields an accumulated
issue carrying that event index -/
theorem verifyEventChainE_issue_complete (P : ChainPrims) (events : List SignedEventE)
    (pub : String) (k : Nat) (h : offendsAt P pub events k) :
    ∃ issue ∈ (verifyEventChainE P events pub).errors, issue.index = k := by
  cases events with
  | nil =>
    exfalso
    rcases h with ⟨_, e0, he, _⟩ | ⟨e, he, _⟩ | ⟨_, e, pe, he, _, _⟩ <;> simp at he
  | cons e0 rest =>
    simp only [verifyEventChainE]
    rcases h with ⟨hk0, e, he, hne⟩ | ⟨e, he, hv⟩ | ⟨hkpos, e, pe, he, hpe, hne⟩
    · subst hk0
      have he' : e0 = e := by simpa using he
      subst he'
      exact ⟨.genesisPrevHashNotNull,
        List.mem_append.mpr (Or.inl (by rw [if_pos hne]; simp)), rfl⟩
    · refine ⟨.eventInvalid (0 + k) (verifyEventE P e pub).errors,
        List.mem_append.mpr (Or.inr ((chainLoop_mem P pub (e0 :: rest) 0 none _).mpr
          (Or.inl ⟨k, e, he, ?_, rfl⟩))), by simp [ChainIssue.index]⟩
      rw [verifyEventE_valid_iff]
      exact hv
    · cases k with
      | zero => exact absurd hkpos (by omega)
      | succ k =>
        refine ⟨.prevHashMismatch (0 + (k + 1)) pe.hash e.prev_hash,
          List.mem_append.mpr (Or.inr ((chainLoop_mem P pub (e0 :: rest) 0 none _).mpr
            (Or.inr ⟨k + 1, e, pe, he, ?_, hne, rfl⟩))), by simp [ChainIssue.index]⟩
        simpa [prevAt] using hpe

/-- the full accumulated issue list carries nondecreasing indices -/
theorem verifyEventChainE_sorted (P : ChainPrims) (events : List SignedEventE)
    (pub : String) :
    ((verifyEventChainE P events pub).errors).Pairwise (fun a b => a.index ≤ b.index) := by
  cases events with
  | nil => simp [verifyEventChainE]
  | cons e0 rest =>
    simp only [verifyEventChainE]
    rw [List.pairwise_append]
    refine ⟨?_, chainLoop_sorted P pub _ 0 none, ?_⟩
    · split <;> simp
    · intro a ha b hb
      have hai : a.index = 0 := by
        split at ha
        · rcases List.mem_singleton.mp ha with rfl; rfl
        · simp at ha
      rw [hai]
      exact Nat.zero_le _

/-- absence of offenses is exactly the spec-side chain discipline:
every event verifies, the genesis `prev_hash` is null, and adjacent
events are hash-linked -/
theorem no_offense_iff (P : ChainPrims) (pub : String) (events : List SignedEventE) :
    (∀ k, ¬ offendsAt P pub events k) ↔
      ((∀ e ∈ events, eventOk P pub e)
       ∧ (∀ e0, events.head? = some e0 → e0.prev_hash = none)
       ∧ List.Chain' (fun a b => b.prev_hash = some a.hash) events) := by
  constructor
  · intro h
    refine ⟨?_, ?_, ?_⟩
    · intro e he
      obtain ⟨i, hi, hie⟩ := List.mem_iff_getElem.mp he
      by_contra hnok
      exact h i (Or.inr (Or.inl ⟨e, by rw [List.getElem?_eq_getElem hi, hie], hnok⟩))
    · intro e0 he0
      by_contra hne
      exact h 0 (Or.inl ⟨rfl, e0, he0, hne⟩)
    · rw [List.chain'_iff_get]
      intro i hi
      by_contra hne
      have hi1 : i + 1 < events.length := by omega
      have hi0 : i < events.length := by omega
      refine h (i + 1) (Or.inr (Or.inr ⟨Nat.succ_pos i, events.get ⟨i + 1, hi1⟩,
        events.get ⟨i, hi0⟩, ?_, ?_, ?_⟩))
      · rw [List.getElem?_eq_getElem hi1, List.get_eq_getElem]
      · simp only [Nat.add_sub_cancel]
        rw [List.getElem?_eq_getElem hi0, List.get_eq_getElem]
      · exact hne
  · rintro ⟨h1, h2, h3⟩ k hoff
    rcases hoff with ⟨rfl, e0, he0, hne⟩ | ⟨e, he, hnok⟩ | ⟨hpos, e, pe, he, hpe, hne⟩
    · exact hne (h2 e0 he0)
    · obtain ⟨hlt, hel⟩ := List.getElem?_eq_some.mp he
      exact hnok (h1 e (List.mem_iff_getElem.mpr ⟨k, hlt, hel⟩))
    · rw [List.chain'_iff_get] at h3
      obtain ⟨hlt, hel⟩ := List.getElem?_eq_some.mp he
      obtain ⟨hlt', hel'⟩ := List.getElem?_eq_some.mp hpe
      have hk : k - 1 + 1 = k := Nat.succ_pred_eq_of_pos hpos
      have h4 := h3 (k - 1) (by omega)
      have hg1 : events[k - 1 + 1]? = some (events.get ⟨k - 1 + 1, by omega⟩) := by
        rw [List.getElem?_eq_getElem (by omega : k - 1 + 1 < events.length)]
        rw [List.get_eq_getElem]
      conv at hg1 => lhs; rw [hk]
      rw [he] at hg1
      have he' : e = events.get ⟨k - 1 + 1, by omega⟩ := Option.some_inj.mp hg1
      have hg0 : events[k - 1]? = some (events.get ⟨k - 1, by omega⟩) := by
        rw [List.getElem?_eq_getElem (by omega : k - 1 < events.length)]
        rw [List.get_eq_getElem]
      rw [hpe] at hg0
      have hpe' : pe = events.get ⟨k - 1, by omega⟩ := Option.some_inj.mp hg0
      apply hne
      rw [he', hpe']
      exact h4

/-- C4: `verifyEventChain` recomputes every event's hash from its
canonical unsigned form and verifies every signature under the agent's
public key, requires a null genesis `prev_hash` and hash-linked
adjacent events (`valid` holds exactly when all of that does),
accumulates every violation tagged with its event index (soundly and
completely), reports the first — minimal — offending index separately,
and returns `valid = true` with `totalEvents = 0` for an empty chain,
as does the service-level `verifyAgentChain` wrapper. -/
theorem C4_verifyEventChain_correct (P : ChainPrims) (events : List SignedEventE)
    (pub : String) :
    ((verifyEventChainE P events pub).totalEvents = events.length)
    ∧ (events = [] → verifyEventChainE P events pub = ⟨true, [], 0, none⟩)
    ∧ ((verifyEventChainE P events pub).valid = true ↔
        ((∀ e ∈ events, eventOk P pub e)
         ∧ (∀ e0, events.head? = some e0 → e0.prev_hash = none)
         ∧ List.Chain' (fun a b => b.prev_hash = some a.hash) events))
    ∧ (∀ issue ∈ (verifyEventChainE P events pub).errors,
        offendsAt P pub events issue.index)
    ∧ (∀ k, offendsAt P pub events k →
        ∃ issue ∈ (verifyEventChainE P events pub).errors, issue.index = k)
    ∧ ((verifyEventChainE P events pub).firstInvalidEvent = none ↔
        (verifyEventChainE P events pub).valid = true)
    ∧ (∀ j, (verifyEventChainE P events pub).firstInvalidEvent = some j →
        offendsAt P pub events j ∧ ∀ k < j, ¬ offendsAt P pub events k)
    ∧ (∀ (st : LedgerState) (agentId : String) (agent : Agent),
        findAgentById st.agents agentId = some agent →
        getAgentChain st.events agentId = [] →
        verifyAgentChainService P st agentId = .ok ⟨true, [], 0, none⟩) := by
  have hvalid_iff_empty : (verifyEventChainE P events pub).valid = true ↔
      (verifyEventChainE P events pub).errors = [] := by
    cases events with
    | nil => simp [verifyEventChainE]
    | cons e0 rest =>
      simp only [verifyEventChainE]
      exact List.isEmpty_iff
  have herr_iff : (verifyEventChainE P events pub).errors = [] ↔
      ∀ k, ¬ offendsAt P pub events k := by
    constructor
    · intro he k hoff
      obtain ⟨issue, hmem, _⟩ := verifyEventChainE_issue_complete P events pub k hoff
      rw [he] at hmem
      exact List.not_mem_nil _ hmem
    · intro h
      by_contra hne
      obtain ⟨issue, hmem⟩ := List.exists_mem_of_ne_nil _ hne
      exact h issue.index (verifyEventChainE_issue_sound P events pub issue hmem)
  have hfie : (verifyEventChainE P events pub).firstInvalidEvent =
      ((verifyEventChainE P events pub).errors.head?).map ChainIssue.index := by
    cases events with
    | nil => rfl
    | cons e0 rest => rfl
  refine ⟨?_, ?_, ?_, ?_, ?_, ?_, ?_, ?_⟩
  · cases events with
    | nil => rfl
    | cons e0 rest => rfl
  · intro h
    subst h
    rfl
  · rw [hvalid_iff_empty, herr_iff, no_offense_iff]
  · exact fun issue hmem => verifyEventChainE_issue_sound P events pub issue hmem
  · exact fun k hoff => verifyEventChainE_issue_complete P events pub k hoff
  · rw [hfie, Option.map_eq_none', List.head?_eq_none_iff, hvalid_iff_empty]
  · intro j hj
    rw [hfie] at hj
    obtain ⟨issue0, hh, hidx⟩ := Option.map_eq_some'.mp hj
    cases herr : (verifyEventChainE P events pub).errors with
    | nil =>
      rw [herr] at hh
      exact absurd hh (by simp)
    | cons a tail =>
      rw [herr] at hh
      have ha : a = issue0 := by simpa using hh
      subst ha
      have hmem0 : a ∈ (verifyEventChainE P events pub).errors := by
        rw [herr]; exact List.mem_cons_self _ _
      refine ⟨hidx ▸ verifyEventChainE_issue_sound P events pub a hmem0, ?_⟩
      intro k hk hoff
      obtain ⟨issue, hmem, hki⟩ := verifyEventChainE_issue_complete P events pub k hoff
      have hsort := verifyEventChainE_sorted P events pub
      rw [herr] at hsort hmem
      have htail : ∀ b ∈ tail, a.index ≤ b.index := (List.pairwise_cons.mp hsort).1
      rcases List.mem_cons.mp hmem with rfl | hmem'
      · omega
      · have := htail issue hmem'
        omega
  · intro st agentId agent hfind hempty
    simp [verifyAgentChainService, hfind, hempty]

/-- C4 witness: the empty chain is vacuously valid with zero events, at
both the crypto and the service level. -/
theorem C4_witness :
    verifyEventChainE probeChainPrims [] "pk-1" = ⟨true, [], 0, none⟩
    ∧ verifyAgentChainService probeChainPrims ledgerStart "agent-1" =
        .ok ⟨true, [], 0, none⟩ :=
  ⟨(C4_verifyEventChain_correct probeChainPrims [] "pk-1").2.1 rfl,
   (C4_verifyEventChain_correct probeChainPrims [] "pk-1").2.2.2.2.2.2.2
     ledgerStart "agent-1" agentOne rfl (by simp [getAgentChain, ledgerStart])⟩

/-- a version-1 keystore whose MAC check passes proceeds to component
extraction and AEAD decryption -/
theorem decryptKeystoreE_reduce (P : KSPrims) (ks : EncryptedKeystore) (password : String)
    (hver : ks.version = "1")
    (hmac : P.hashHex (((decryptDerivedKey P ks password).drop 16).take 16 ++
      ks.crypto.ciphertext) = ks.crypto.mac) :
    decryptKeystoreE P ks password =
      match P.aeadDec (decryptDerivedKey P ks password)
          (ks.crypto.ciphertext.drop (ks.crypto.ciphertext.length - 16))
          (ks.crypto.ciphertext.take (ks.crypto.ciphertext.length - 32))
          ((ks.crypto.ciphertext.drop (ks.crypto.ciphertext.length - 32)).take 16) with
      | some pk => .ok pk
      | none => .error "Unable to authenticate data" := by
  simp only [decryptKeystoreE]
  rw [if_neg (by rw [hver]; simp), if_neg (not_not_intro hmac)]

/-- the MAC check precedes decryption: a computed MAC differing from
the stored one short-circuits to the mismatch error -/
theorem decryptKeystoreE_mac_mismatch (P : KSPrims) (ks : EncryptedKeystore)
    (password : String) (hver : ks.version = "1")
    (hmac : P.hashHex (((decryptDerivedKey P ks password).drop 16).take 16 ++
      ks.crypto.ciphertext) ≠ ks.crypto.mac) :
    decryptKeystoreE P ks password =
      .error "Invalid password or corrupted keystore (MAC mismatch)" := by
  simp only [decryptKeystoreE]
  rw [if_neg (by rw [hver]; simp), if_pos hmac]

/-- C9: decrypting a keystore with the password that produced it
returns the original private key (given the AEAD round-trip contract
and the 16-byte tag/IV lengths); a different password whose derived-key
MAC differs is rejected at the MAC check before any decryption; any
tampered `mac` is rejected; and any tampered ciphertext whose digest
differs from the stored MAC is rejected. -/
theorem C9_keystore_roundtrip (P : KSPrims) (rnd : KSRandom)
    (k agentId pwd pwd' : String)
    (htag : (P.aeadEnc (encryptDerivedKey P rnd pwd) rnd.iv k).2.length = 16)
    (hiv : rnd.iv.length = 16)
    (hdec : P.aeadDec (encryptDerivedKey P rnd pwd) rnd.iv
        (P.aeadEnc (encryptDerivedKey P rnd pwd) rnd.iv k).1
        (P.aeadEnc (encryptDerivedKey P rnd pwd) rnd.iv k).2 = some k) :
    (decryptKeystoreE P (encryptKeystoreE P rnd k agentId pwd) pwd = .ok k)
    ∧ (P.hashHex (((P.scrypt pwd' rnd.salt 32 nodeDefaultScryptCost).drop 16).take 16 ++
          (encryptKeystoreE P rnd k agentId pwd).crypto.ciphertext) ≠
        (encryptKeystoreE P rnd k agentId pwd).crypto.mac →
        decryptKeystoreE P (encryptKeystoreE P rnd k agentId pwd) pwd' =
          .error "Invalid password or corrupted keystore (MAC mismatch)")
    ∧ (∀ mac', mac' ≠ (encryptKeystoreE P rnd k agentId pwd).crypto.mac →
        decryptKeystoreE P
          { encryptKeystoreE P rnd k agentId pwd with
            crypto := { (encryptKeystoreE P rnd k agentId pwd).crypto with mac := mac' } }
          pwd = .error "Invalid password or corrupted keystore (MAC mismatch)")
    ∧ (∀ combined',
        P.hashHex (((encryptDerivedKey P rnd pwd).drop 16).take 16 ++ combined') ≠
          (encryptKeystoreE P rnd k agentId pwd).crypto.mac →
        decryptKeystoreE P
          { encryptKeystoreE P rnd k agentId pwd with
            crypto := { (encryptKeystoreE P rnd k agentId pwd).crypto with
              ciphertext := combined' } }
          pwd = .error "Invalid password or corrupted keystore (MAC mismatch)") := by
  refine ⟨?_, ?_, ?_, ?_⟩
  · have hdrop_iv :
        ((P.aeadEnc (encryptDerivedKey P rnd pwd) rnd.iv k).1 ++
          (P.aeadEnc (encryptDerivedKey P rnd pwd) rnd.iv k).2 ++ rnd.iv).drop
          (((P.aeadEnc (encryptDerivedKey P rnd pwd) rnd.iv k).1 ++
            (P.aeadEnc (encryptDerivedKey P rnd pwd) rnd.iv k).2 ++ rnd.iv).length - 16) =
          rnd.iv := by
      have h16 : ((P.aeadEnc (encryptDerivedKey P rnd pwd) rnd.iv k).1 ++
          (P.aeadEnc (encryptDerivedKey P rnd pwd) rnd.iv k).2 ++ rnd.iv).length - 16 =
          ((P.aeadEnc (encryptDerivedKey P rnd pwd) rnd.iv k).1 ++
            (P.aeadEnc (encryptDerivedKey P rnd pwd) rnd.iv k).2).length := by
        simp only [List.length_append, htag, hiv]
        omega
      rw [h16, List.drop_left]
    have h32 : ((P.aeadEnc (encryptDerivedKey P rnd pwd) rnd.iv k).1 ++
        (P.aeadEnc (encryptDerivedKey P rnd pwd) rnd.iv k).2 ++ rnd.iv).length - 32 =
        (P.aeadEnc (encryptDerivedKey P rnd pwd) rnd.iv k).1.length := by
      simp only [List.length_append, htag, hiv]
      omega
    have hdrop_tag :
        (((P.aeadEnc (encryptDerivedKey P rnd pwd) rnd.iv k).1 ++
          (P.aeadEnc (encryptDerivedKey P rnd pwd) rnd.iv k).2 ++ rnd.iv).drop
          (((P.aeadEnc (encryptDerivedKey P rnd pwd) rnd.iv k).1 ++
            (P.aeadEnc (encryptDerivedKey P rnd pwd) rnd.iv k).2 ++ rnd.iv).length - 32)).take 16 =
          (P.aeadEnc (encryptDerivedKey P rnd pwd) rnd.iv k).2 := by
      rw [h32, List.append_assoc, List.drop_left, ← htag, List.take_left]
    have htake_ct :
        ((P.aeadEnc (encryptDerivedKey P rnd pwd) rnd.iv k).1 ++
          (P.aeadEnc (encryptDerivedKey P rnd pwd) rnd.iv k).2 ++ rnd.iv).take
          (((P.aeadEnc (encryptDerivedKey P rnd pwd) rnd.iv k).1 ++
            (P.aeadEnc (encryptDerivedKey P rnd pwd) rnd.iv k).2 ++ rnd.iv).length - 32) =
          (P.aeadEnc (encryptDerivedKey P rnd pwd) rnd.iv k).1 := by
      rw [h32, List.append_assoc, List.take_left]
    rw [decryptKeystoreE_reduce P (encryptKeystoreE P rnd k agentId pwd) pwd rfl rfl]
    have hkey : decryptDerivedKey P (encryptKeystoreE P rnd k agentId pwd) pwd =
        encryptDerivedKey P rnd pwd := rfl
    have hct : (encryptKeystoreE P rnd k agentId pwd).crypto.ciphertext =
        (P.aeadEnc (encryptDerivedKey P rnd pwd) rnd.iv k).1 ++
          (P.aeadEnc (encryptDerivedKey P rnd pwd) rnd.iv k).2 ++ rnd.iv := rfl
    rw [hkey, hct, hdrop_iv, htake_ct, hdrop_tag, hdec]
  · intro hmacne
    exact decryptKeystoreE_mac_mismatch P _ pwd' rfl hmacne
  · intro mac' hne
    exact decryptKeystoreE_mac_mismatch P _ pwd rfl (Ne.symm hne)
  · intro combined' hne
    exact decryptKeystoreE_mac_mismatch P _ pwd rfl hne

set_option maxRecDepth 100000 in
/-- C9 witness: the round trip and the three failure modes at concrete
toy primitives and inputs. -/
theorem C9_witness :
    (decryptKeystoreE probePrims
      (encryptKeystoreE probePrims
        ⟨List.replicate 32 1, List.replicate 16 2, List.replicate 16 3⟩
        "abcd" "ag" "pw") "pw" = .ok "abcd")
    ∧ (decryptKeystoreE probePrims
      (encryptKeystoreE probePrims
        ⟨List.replicate 32 1, List.replicate 16 2, List.replicate 16 3⟩
        "abcd" "ag" "pw") "alpha" =
        .error "Invalid password or corrupted keystore (MAC mismatch)")
    ∧ (decryptKeystoreE probePrims
      { encryptKeystoreE probePrims
          ⟨List.replicate 32 1, List.replicate 16 2, List.replicate 16 3⟩
          "abcd" "ag" "pw" with
        crypto := { (encryptKeystoreE probePrims
          ⟨List.replicate 32 1, List.replicate 16 2, List.replicate 16 3⟩
          "abcd" "ag" "pw").crypto with mac := "tampered" } } "pw" =
        .error "Invalid password or corrupted keystore (MAC mismatch)")
    ∧ (decryptKeystoreE probePrims
      { encryptKeystoreE probePrims
          ⟨List.replicate 32 1, List.replicate 16 2, List.replicate 16 3⟩
          "abcd" "ag" "pw" with
        crypto := { (encryptKeystoreE probePrims
          ⟨List.replicate 32 1, List.replicate 16 2, List.replicate 16 3⟩
          "abcd" "ag" "pw").crypto with ciphertext := [0] } } "pw" =
        .error "Invalid password or corrupted keystore (MAC mismatch)") := by
  have h := C9_keystore_roundtrip probePrims
    ⟨List.replicate 32 1, List.replicate 16 2, List.replicate 16 3⟩
    "abcd" "ag" "pw" "alpha" (by decide) (by decide) (by decide)
  exact ⟨h.1, h.2.1 (by decide), h.2.2.1 "tampered" (by decide), h.2.2.2 [0] (by decide)⟩

end TrustInfra
